import Mathlib

/-!
Shallow embedding of `server.js` (JustClips/pa).

The source file contains two snapshots of the server.  The second
("ultra-optimized") snapshot is the one with TTL sweeping and capacity
enforcement; all definitions below without a `V1` suffix embed that
snapshot.  `patchBrainrotsLeaveV1` embeds the corresponding handler of
the first snapshot.

Modelling conventions:
* A JS `Map` is a `List (String × α)` kept in insertion order
  (`Map.set` on an existing key updates in place, on a new key appends;
  `Map.delete` removes; iteration follows insertion order).
* Timestamps (`Date.now()` milliseconds) are `Int`.
* `Array.prototype.sort` with a numeric comparator is a stable sort; it
  is embedded as `List.insertionSort` with the corresponding (total,
  reflexive) relation, which is likewise stable.
* Request-body fields that may be absent or non-strings are `Option
  String` (`none` = missing / not a string); JS string truthiness
  (`""` and `undefined` falsy) is the `truthy` predicate.
* The `for (const [key, e] of map) if (cond) map.delete(key)` sweep
  loops delete exactly the entries failing the liveness test while
  preserving the order of the survivors; they are embedded as
  `List.filter`.
-/



/-- JS `String.prototype.toLowerCase()` (ASCII range), as a
computation on the character list. -/
def jsToLower (s : String) : String := ⟨s.data.map Char.toLower⟩

/-- JS `String.prototype.trim()`: strip leading and trailing
whitespace. -/
def jsTrim (s : String) : String :=
  ⟨((s.data.dropWhile Char.isWhitespace).reverse.dropWhile
      Char.isWhitespace).reverse⟩

abbrev JsMap (α : Type) := List (String × α)

namespace JsMap

variable {α : Type}

/-- `map.has(k)` — whether the key is present. -/
def hasKey (m : JsMap α) (k : String) : Bool :=
  m.any (fun kv => kv.1 == k)

/-- `map.get(k)` — the value stored at the key, if any (the first pair
carrying the key; a well-formed map has at most one). -/
def getVal (m : JsMap α) (k : String) : Option α :=
  match m with
  | [] => none
  | kv :: rest => if kv.1 == k then some kv.2 else getVal rest k

/-- `map.set(k, v)` — update in place when the key exists (keeping its
insertion position), otherwise append. -/
def set (m : JsMap α) (k : String) (v : α) : JsMap α :=
  if m.hasKey k then m.map (fun kv => if kv.1 == k then (k, v) else kv)
  else m ++ [(k, v)]

/-- `map.delete(k)` (effect on the map). -/
def delKey (m : JsMap α) (k : String) : JsMap α :=
  m.filter (fun kv => kv.1 != k)

/-- `map.delete(k)` (returned boolean and effect): JS `Map.delete`
returns whether the key was present. -/
def del (m : JsMap α) (k : String) : Bool × JsMap α :=
  (m.hasKey k, m.delKey k)

/-- `map.size`. -/
def size (m : JsMap α) : Nat := m.length

/-- The keys of the map, in insertion order. -/
def keys (m : JsMap α) : List String := m.map Prod.fst

end JsMap

/-- A stored player record (`activePlayers.set(key, {...})`). -/
structure PlayerEntry where
  username : String
  serverId : String
  jobId : String
  placeId : String
  lastSeen : Int
deriving DecidableEq, Repr

/-- A stored brainrot record (`brainrots.set(key, entry)`). -/
structure BrainrotEntry where
  name : String
  serverId : String
  jobId : String
  players : Int
  moneyPerSec : Int
  lastSeen : Int
  active : Bool
  source : String
deriving DecidableEq, Repr

def MAX_BRAINROTS : Nat := 50
def MAX_PLAYERS : Nat := 100
def BRAINROT_LIVETIME_MS : Int := 30 * 1000
def PLAYER_TIMEOUT_MS : Int := 30 * 1000
def MAX_RESPONSE_BRAINROTS : Nat := 20
/-- The `setInterval(..., 2000)` background sweep period. -/
def SWEEP_INTERVAL_MS : Int := 2000

/-- JS truthiness of an optional string field: `undefined` and `""` are
falsy, every other string is truthy. -/
def truthy : Option String → Bool
  | none => false
  | some s => s != ""

/-- The expiry sweep of `cleanupInactivePlayers`: delete every player
with `lastSeen < now - PLAYER_TIMEOUT_MS`. -/
def expirePlayers (nowTime : Int) (m : JsMap PlayerEntry) : JsMap PlayerEntry :=
  m.filter (fun kv => !decide (kv.2.lastSeen < nowTime - PLAYER_TIMEOUT_MS))

/-- `cleanupInactivePlayers`, with the capacity limit as a parameter
(the source fixes it to `MAX_PLAYERS`): after the expiry sweep, if the
map is over the limit, sort ascending by `lastSeen` (oldest first) and
delete from the front until back at the limit. -/
def cleanupInactivePlayersWith (maxPlayers : Nat) (nowTime : Int)
    (m : JsMap PlayerEntry) : JsMap PlayerEntry :=
  let afterExpiry := expirePlayers nowTime m
  if afterExpiry.length > maxPlayers then
    let sorted := List.insertionSort
      (fun a b : String × PlayerEntry => a.2.lastSeen ≤ b.2.lastSeen) afterExpiry
    let toRemove := afterExpiry.length - maxPlayers
    (sorted.take toRemove).foldl (fun acc kv => acc.delKey kv.1) afterExpiry
  else afterExpiry

def cleanupInactivePlayers (nowTime : Int) (m : JsMap PlayerEntry) :
    JsMap PlayerEntry :=
  cleanupInactivePlayersWith MAX_PLAYERS nowTime m

/-- The expiry sweep of `cleanupOldBrainrots`: delete every brainrot
with `lastSeen < now - BRAINROT_LIVETIME_MS`. -/
def expireBrainrots (nowTime : Int) (m : JsMap BrainrotEntry) : JsMap BrainrotEntry :=
  m.filter (fun kv => !decide (kv.2.lastSeen < nowTime - BRAINROT_LIVETIME_MS))

/-- `cleanupOldBrainrots`, with the capacity limit as a parameter (the
source fixes it to `MAX_BRAINROTS`): after the expiry sweep, if the map
is over the limit, sort by `lastSeen` DESCENDING ("Sort by newest
first") and delete from the front — i.e. delete the most recently
active entries — until back at the limit. -/
def cleanupOldBrainrotsWith (maxBrainrots : Nat) (nowTime : Int)
    (m : JsMap BrainrotEntry) : JsMap BrainrotEntry :=
  let afterExpiry := expireBrainrots nowTime m
  if afterExpiry.length > maxBrainrots then
    let sorted := List.insertionSort
      (fun a b : String × BrainrotEntry => b.2.lastSeen ≤ a.2.lastSeen) afterExpiry
    let toRemove := afterExpiry.length - maxBrainrots
    (sorted.take toRemove).foldl (fun acc kv => acc.delKey kv.1) afterExpiry
  else afterExpiry

def cleanupOldBrainrots (nowTime : Int) (m : JsMap BrainrotEntry) :
    JsMap BrainrotEntry :=
  cleanupOldBrainrotsWith MAX_BRAINROTS nowTime m

/-- Outcome of a write endpoint: `res.json({ success: true })` or
`res.status(400).json({ error: ... })`. -/
inductive ApiResult where
  | success : ApiResult
  | badRequest (msg : String) : ApiResult
deriving DecidableEq, Repr

/-- Body of `POST /players/heartbeat`. -/
structure HeartbeatReq where
  username : Option String
  serverId : Option String
  jobId : Option String
  placeId : Option String
deriving Repr

/-- `POST /players/heartbeat`: validate (`!username || !serverId ||
!jobId`, no trimming), build the key from the lower-cased username, set
the entry (with `placeId: placeId || serverId`), then run
`cleanupInactivePlayers`.  Returns the HTTP outcome and the store after
the request. -/
def playersHeartbeat (req : HeartbeatReq) (t : Int) (m : JsMap PlayerEntry) :
    ApiResult × JsMap PlayerEntry :=
  if !truthy req.username || !truthy req.serverId || !truthy req.jobId then
    (ApiResult.badRequest "Missing username, serverId, or jobId", m)
  else
    let username := req.username.getD ""
    let serverId := req.serverId.getD ""
    let jobId := req.jobId.getD ""
    let key := jsToLower username ++ "_" ++ serverId ++ "_" ++ jobId
    let entry : PlayerEntry :=
      { username := username
        serverId := serverId
        jobId := jobId
        placeId := if truthy req.placeId then req.placeId.getD "" else serverId
        lastSeen := t }
    (ApiResult.success, cleanupInactivePlayers t (m.set key entry))

/-- Body of `POST /brainrots` (identity fields may be missing or not
strings; payload fields are passed through). -/
structure BrainrotReq where
  name : Option String
  serverId : Option String
  jobId : Option String
  players : Int
  moneyPerSec : Int
deriving Repr

/-- `typeof x === "string" ? x.trim() : ""`. -/
def trimOrEmpty : Option String → String
  | none => ""
  | some s => jsTrim s

/-- `POST /brainrots`: coerce the identity fields with
`trimOrEmpty`, reject when any is empty, derive `source` from the
network origin (`isRailway`), set the entry, then run
`cleanupOldBrainrots`. -/
def postBrainrots (req : BrainrotReq) (isRailway : Bool) (t : Int)
    (m : JsMap BrainrotEntry) : ApiResult × JsMap BrainrotEntry :=
  let name := trimOrEmpty req.name
  let serverId := trimOrEmpty req.serverId
  let jobId := trimOrEmpty req.jobId
  if name == "" || serverId == "" || jobId == "" then
    (ApiResult.badRequest "Missing name, serverId, or jobId", m)
  else
    let source := if isRailway then "bot" else "lua"
    let key := serverId ++ "_" ++ jsToLower name ++ "_" ++ jobId
    let entry : BrainrotEntry :=
      { name := name
        serverId := serverId
        jobId := jobId
        players := req.players
        moneyPerSec := req.moneyPerSec
        lastSeen := t
        active := true
        source := source }
    (ApiResult.success, cleanupOldBrainrots t (m.set key entry))

/-- One element of the `GET /brainrots` response. -/
structure BrainrotView where
  name : String
  serverId : String
  jobId : String
  players : Int
  moneyPerSec : Int
  lastSeen : Int
  source : String
deriving DecidableEq, Repr

/-- The response projection of a stored brainrot (drops `active`). -/
def BrainrotEntry.toView (br : BrainrotEntry) : BrainrotView :=
  { name := br.name
    serverId := br.serverId
    jobId := br.jobId
    players := br.players
    moneyPerSec := br.moneyPerSec
    lastSeen := br.lastSeen
    source := br.source }

/-- The response ordering of `GET /brainrots`
(`.sort((a, b) => b.lastSeen - a.lastSeen)`): newest first. -/
def viewNewestFirst (a b : BrainrotView) : Prop := b.lastSeen ≤ a.lastSeen

instance : DecidableRel viewNewestFirst := fun _ _ => Int.decLe _ _

instance : IsTotal BrainrotView viewNewestFirst :=
  ⟨fun a b => (le_total a.lastSeen b.lastSeen).symm⟩

instance : IsTrans BrainrotView viewNewestFirst :=
  ⟨fun _ _ _ hab hbc => le_trans hbc hab⟩

/-- `GET /brainrots`: run `cleanupOldBrainrots`, keep the entries with
`lastSeen >= now - BRAINROT_LIVETIME_MS`, sort newest first, truncate
to `MAX_RESPONSE_BRAINROTS`.  Returns the response and the store after
the request. -/
def getBrainrots (t : Int) (m : JsMap BrainrotEntry) :
    List BrainrotView × JsMap BrainrotEntry :=
  let m1 := cleanupOldBrainrots t m
  let cutoff := t - BRAINROT_LIVETIME_MS
  let activeBrainrots :=
    ((m1.map Prod.snd).filter (fun br => decide (cutoff ≤ br.lastSeen))).map
      BrainrotEntry.toView
  let sorted := List.insertionSort viewNewestFirst activeBrainrots
  (sorted.take MAX_RESPONSE_BRAINROTS, m1)

/-- One element of the `GET /players/active` response. -/
structure PlayerView where
  username : String
  serverId : String
  jobId : String
  placeId : String
  secondsSinceLastSeen : Int
deriving DecidableEq, Repr

/-- The response projection of a stored player at read time `t`
(`Math.floor((now() - lastSeen) / 1000)` is flooring division). -/
def PlayerEntry.toView (t : Int) (p : PlayerEntry) : PlayerView :=
  { username := p.username
    serverId := p.serverId
    jobId := p.jobId
    placeId := p.placeId
    secondsSinceLastSeen := (t - p.lastSeen).fdiv 1000 }

/-- `GET /players/active`: run `cleanupInactivePlayers`, take the first
50 players in map (insertion) order — no sorting — and project them.
Returns the response and the store after the request. -/
def getPlayersActive (t : Int) (m : JsMap PlayerEntry) :
    List PlayerView × JsMap PlayerEntry :=
  let m1 := cleanupInactivePlayers t m
  let limitedPlayers := (m1.map Prod.snd).take 50
  (limitedPlayers.map (PlayerEntry.toView t), m1)

/-- `GET /brainrots/stats`: counts only; the store is not touched. -/
def getBrainrotsStats (t : Int) (m : JsMap BrainrotEntry) :
    (Nat × Nat × Nat) × JsMap BrainrotEntry :=
  let cutoff := t - BRAINROT_LIVETIME_MS
  let live := (m.map Prod.snd).filter (fun br => decide (cutoff ≤ br.lastSeen))
  let activeCount := live.length
  let luaCount := (live.filter (fun br => br.source == "lua")).length
  let botCount := (live.filter (fun br => br.source == "bot")).length
  ((activeCount, luaCount, botCount), m)

/-- `GET /brainrots/debug`: runs `cleanupOldBrainrots`, then only reads.
We keep the summary counts; the store after the request is returned. -/
def getBrainrotsDebug (t : Int) (m : JsMap BrainrotEntry) :
    (Nat × Nat × Nat) × JsMap BrainrotEntry :=
  let m1 := cleanupOldBrainrots t m
  let cutoff := t - BRAINROT_LIVETIME_MS
  let activeCount := ((m1.map Prod.snd).filter (fun br => decide (cutoff ≤ br.lastSeen))).length
  let expiredCount := ((m1.map Prod.snd).filter (fun br => !decide (cutoff ≤ br.lastSeen))).length
  ((m1.length, activeCount, expiredCount), m1)

/-- Body of `PATCH /brainrots/leave`. -/
structure LeaveReq where
  name : Option String
  serverId : Option String
  jobId : Option String
deriving Repr

/-- The key a leave request addresses. -/
def LeaveReq.key (req : LeaveReq) : String :=
  (trimOrEmpty req.serverId) ++ "_" ++ jsToLower (trimOrEmpty req.name) ++ "_"
    ++ (trimOrEmpty req.jobId)

/-- `PATCH /brainrots/leave` (second snapshot): delete the key and
respond `{ success: true }` unconditionally — the boolean returned by
`Map.delete` is discarded. -/
def patchBrainrotsLeave (req : LeaveReq) (m : JsMap BrainrotEntry) :
    Bool × JsMap BrainrotEntry :=
  (true, m.delKey req.key)

/-- `PATCH /brainrots/leave` (first snapshot): respond
`{ success: deleted }` where `deleted` is the boolean returned by
`Map.delete` — whether the key was present. -/
def patchBrainrotsLeaveV1 (req : LeaveReq) (m : JsMap BrainrotEntry) :
    Bool × JsMap BrainrotEntry :=
  let deleted := m.del req.key
  (deleted.1, deleted.2)

/-- `DELETE /brainrots`: clear and report the prior size. -/
def deleteBrainrots (m : JsMap BrainrotEntry) : Nat × JsMap BrainrotEntry :=
  (m.size, [])

/-- The Query View as the spec words it (§4.4): filter the stored
entries to those with `lastActivity >= now - TTL`, sort by
`lastActivity` descending, truncate to `responseCap`. -/
def liveEntriesSpec (t : Int) (responseCap : Nat) (m : JsMap BrainrotEntry) :
    List BrainrotView :=
  (List.insertionSort viewNewestFirst
    (((m.map Prod.snd).filter
      (fun br => decide (t - BRAINROT_LIVETIME_MS ≤ br.lastSeen))).map
        BrainrotEntry.toView)).take responseCap

/-! ### Map lemmas -/

namespace JsMap

theorem delKey_sublist (m : JsMap α) (k : String) : (m.delKey k).Sublist m :=
  List.filter_sublist m

theorem foldl_delKey_sublist (l : List (String × α)) (m : JsMap α) :
    (l.foldl (fun acc kv => acc.delKey kv.1) m).Sublist m := by
  induction l generalizing m with
  | nil => exact List.Sublist.refl m
  | cons kv l ih => exact (ih (m.delKey kv.1)).trans (delKey_sublist m kv.1)

theorem hasKey_iff_exists {m : JsMap α} {k : String} :
    m.hasKey k = true ↔ ∃ v, (k, v) ∈ m := by
  unfold hasKey
  rw [List.any_eq_true]
  constructor
  · rintro ⟨⟨k1, v⟩, hkv, hbeq⟩
    have hk : k1 = k := by simpa using hbeq
    subst hk
    exact ⟨v, hkv⟩
  · rintro ⟨v, hv⟩
    exact ⟨(k, v), hv, by simp⟩

theorem hasKey_eq_false_iff {m : JsMap α} {k : String} :
    m.hasKey k = false ↔ ∀ v, (k, v) ∉ m := by
  rw [← Bool.not_eq_true, hasKey_iff_exists]
  simp

theorem mem_keys_iff {m : JsMap α} {k : String} :
    k ∈ m.keys ↔ ∃ v, (k, v) ∈ m := by
  unfold keys
  rw [List.mem_map]
  constructor
  · rintro ⟨⟨k1, v⟩, hkv, rfl⟩
    exact ⟨v, hkv⟩
  · rintro ⟨v, hv⟩
    exact ⟨(k, v), hv, rfl⟩

theorem hasKey_iff_mem_keys {m : JsMap α} {k : String} :
    m.hasKey k = true ↔ k ∈ m.keys :=
  hasKey_iff_exists.trans mem_keys_iff.symm

theorem getVal_eq_some_mem : ∀ {m : JsMap α} {k : String} {v : α},
    m.getVal k = some v → (k, v) ∈ m := by
  intro m
  induction m with
  | nil => intro k v h; simp [getVal] at h
  | cons kv rest ih =>
    intro k v h
    obtain ⟨k1, v1⟩ := kv
    by_cases hk : (k1 == k) = true
    · have hk' : k1 = k := by simpa using hk
      subst hk'
      simp only [getVal, hk, if_true, Option.some.injEq] at h
      subst h
      exact List.mem_cons_self _ _
    · have hk' : (k1 == k) = false := by simpa using hk
      simp only [getVal, hk', Bool.false_eq_true, if_false] at h
      exact List.mem_cons_of_mem _ (ih h)

theorem getVal_eq_none_of_hasKey_eq_false {m : JsMap α} {k : String}
    (h : m.hasKey k = false) : m.getVal k = none := by
  cases hg : m.getVal k with
  | none => rfl
  | some v =>
    have htrue := hasKey_iff_exists.mpr ⟨v, getVal_eq_some_mem hg⟩
    rw [htrue] at h
    cases h

theorem mem_getVal_of_nodup : ∀ {m : JsMap α}, m.keys.Nodup →
    ∀ {k : String} {v : α}, (k, v) ∈ m → m.getVal k = some v := by
  intro m
  induction m with
  | nil => intro _ k v hm; cases hm
  | cons kv rest ih =>
    intro hnd k v hm
    obtain ⟨k1, v1⟩ := kv
    rw [keys, List.map_cons, List.nodup_cons] at hnd
    rcases List.mem_cons.mp hm with heq | hrest
    · rw [Prod.mk.injEq] at heq
      obtain ⟨hk, hv⟩ := heq
      subst hk; subst hv
      simp [getVal]
    · have hk1 : k1 ≠ k := by
        intro hk
        subst hk
        exact hnd.1 (mem_keys_iff.mpr ⟨v, hrest⟩)
      have hbeq : (k1 == k) = false := by simpa using hk1
      simp only [getVal, hbeq, Bool.false_eq_true, if_false]
      exact ih hnd.2 hrest

theorem getVal_filter : ∀ {m : JsMap α} {p : String × α → Bool} {k : String} {v : α},
    m.getVal k = some v → p (k, v) = true → getVal (List.filter p m) k = some v := by
  intro m
  induction m with
  | nil => intro p k v h _; simp [getVal] at h
  | cons kv rest ih =>
    intro p k v h hp
    obtain ⟨k1, v1⟩ := kv
    by_cases hk : (k1 == k) = true
    · have hk' : k1 = k := by simpa using hk
      subst hk'
      simp only [getVal, hk, if_true, Option.some.injEq] at h
      subst h
      rw [List.filter_cons, if_pos hp]
      simp [getVal]
    · have hk' : (k1 == k) = false := by simpa using hk
      simp only [getVal, hk', Bool.false_eq_true, if_false] at h
      rw [List.filter_cons]
      by_cases hpkv : p (k1, v1) = true
      · rw [if_pos hpkv]
        simp only [getVal, hk', Bool.false_eq_true, if_false]
        exact ih h hp
      · rw [if_neg hpkv]
        exact ih h hp

theorem getVal_some_of_sublist {m' m : JsMap α} (hs : m'.Sublist m)
    (hnd : m.keys.Nodup) {k : String} {v : α} (h : m'.getVal k = some v) :
    m.getVal k = some v :=
  mem_getVal_of_nodup hnd (List.Sublist.mem (getVal_eq_some_mem h) hs)

theorem hasKey_eq_false_of_sublist {m' m : JsMap α} (hs : m'.Sublist m) {k : String}
    (h : m.hasKey k = false) : m'.hasKey k = false := by
  rw [hasKey_eq_false_iff] at h ⊢
  intro v hv
  exact h v (List.Sublist.mem hv hs)

theorem keys_sublist {m' m : JsMap α} (hs : m'.Sublist m) : m'.keys.Sublist m.keys :=
  List.Sublist.map Prod.fst hs

theorem delKey_eq_self_of_hasKey_eq_false {m : JsMap α} {k : String}
    (h : m.hasKey k = false) : m.delKey k = m := by
  unfold delKey
  rw [List.filter_eq_self]
  intro kv hkv
  rw [hasKey_eq_false_iff] at h
  have : kv.1 ≠ k := by
    intro hk
    exact h kv.2 (by rw [← hk]; exact hkv)
  simpa using this

theorem hasKey_delKey_self (m : JsMap α) (k : String) :
    (m.delKey k).hasKey k = false := by
  rw [hasKey_eq_false_iff]
  intro v hv
  have := List.of_mem_filter hv
  simp at this

theorem hasKey_delKey_of_ne {m : JsMap α} {k k' : String} (h : k' ≠ k)
    (hm : m.hasKey k' = true) : (m.delKey k).hasKey k' = true := by
  obtain ⟨v, hv⟩ := hasKey_iff_exists.mp hm
  refine hasKey_iff_exists.mpr ⟨v, ?_⟩
  unfold delKey
  rw [List.mem_filter]
  exact ⟨hv, by simpa using h⟩

theorem length_delKey_of_hasKey : ∀ {m : JsMap α}, m.keys.Nodup →
    ∀ {k : String}, m.hasKey k = true → (m.delKey k).length = m.length - 1 := by
  intro m
  induction m with
  | nil => intro _ k h; simp [hasKey] at h
  | cons kv rest ih =>
    intro hnd k h
    obtain ⟨k1, v1⟩ := kv
    rw [keys, List.map_cons, List.nodup_cons] at hnd
    by_cases hk : (k1 == k) = true
    · have hk' : k1 = k := by simpa using hk
      subst hk'
      unfold delKey
      rw [List.filter_cons]
      have hne : ((k1, v1).1 != k1) = false := by simp
      rw [hne]
      simp only [Bool.false_eq_true, if_false]
      have hrest : hasKey rest k1 = false := by
        rw [hasKey_eq_false_iff]
        intro v hv
        exact hnd.1 (mem_keys_iff.mpr ⟨v, hv⟩)
      have hself : delKey rest k1 = rest := delKey_eq_self_of_hasKey_eq_false hrest
      unfold delKey at hself
      rw [hself]
      simp
    · have hk' : (k1 == k) = false := by simpa using hk
      have hhk : hasKey rest k = true := by
        rcases hasKey_iff_exists.mp h with ⟨v, hv⟩
        rcases List.mem_cons.mp hv with heq | hmem
        · rw [Prod.mk.injEq] at heq
          exact absurd (beq_iff_eq.mpr heq.1.symm) (by simp [hk'])
        · exact hasKey_iff_exists.mpr ⟨v, hmem⟩
      have hpos : 0 < rest.length := by
        rcases hasKey_iff_exists.mp hhk with ⟨v, hv⟩
        exact List.length_pos_of_mem hv
      unfold delKey
      rw [List.filter_cons]
      have hne : ((k1, v1).1 != k) = true := by simpa using hk
      rw [hne, if_pos rfl]
      have hlen := ih hnd.2 hhk
      unfold delKey at hlen
      rw [List.length_cons, hlen, List.length_cons]
      omega

theorem foldl_delKey_length : ∀ (ks : List String), ∀ {m : JsMap α},
    m.keys.Nodup → ks.Nodup → (∀ k ∈ ks, m.hasKey k = true) →
    (ks.foldl (fun acc k => acc.delKey k) m).length = m.length - ks.length := by
  intro ks
  induction ks with
  | nil => intro m _ _ _; rfl
  | cons k ks ih =>
    intro m hnd hks hmem
    rw [List.nodup_cons] at hks
    have hk : m.hasKey k = true := hmem k (List.mem_cons_self _ _)
    have hnd' : (m.delKey k).keys.Nodup :=
      List.Sublist.nodup (keys_sublist (delKey_sublist m k)) hnd
    have hmem' : ∀ k' ∈ ks, (m.delKey k).hasKey k' = true := by
      intro k' hk'
      have hne : k' ≠ k := fun hkk => hks.1 (hkk ▸ hk')
      exact hasKey_delKey_of_ne hne (hmem k' (List.mem_cons_of_mem _ hk'))
    rw [List.foldl_cons, ih hnd' hks.2 hmem', length_delKey_of_hasKey hnd hk,
      List.length_cons]
    omega

end JsMap

/-! ### Cleanup lemmas -/

/-- Deleting the keys of the first `n` entries of a sorted permutation
of a duplicate-free map removes exactly `n` entries. -/
theorem capacityEnforce_length {α : Type} (r : (String × α) → (String × α) → Prop)
    [DecidableRel r] (ae : JsMap α) (hnd : ae.keys.Nodup) (n : Nat)
    (hn : n ≤ ae.length) :
    (((List.insertionSort r ae).take n).foldl
      (fun acc kv => JsMap.delKey acc kv.1) ae).length = ae.length - n := by
  have hperm : (List.insertionSort r ae).Perm ae := List.perm_insertionSort r ae
  have hkeys : ((List.insertionSort r ae).map Prod.fst).Perm (ae.map Prod.fst) :=
    hperm.map _
  have hnds : (((List.insertionSort r ae).take n).map Prod.fst).Nodup := by
    rw [List.map_take]
    exact List.Sublist.nodup (List.take_sublist _ _) (hkeys.nodup_iff.mpr hnd)
  have hmem : ∀ k ∈ ((List.insertionSort r ae).take n).map Prod.fst,
      ae.hasKey k = true := by
    intro k hk
    rw [List.map_take] at hk
    have h1 : k ∈ (List.insertionSort r ae).map Prod.fst :=
      List.Sublist.mem hk (List.take_sublist _ _)
    exact JsMap.hasKey_iff_mem_keys.mpr (hkeys.mem_iff.mp h1)
  have hfold := JsMap.foldl_delKey_length
    (((List.insertionSort r ae).take n).map Prod.fst) hnd hnds hmem
  rw [List.foldl_map] at hfold
  have hlen : (((List.insertionSort r ae).take n).map Prod.fst).length = n := by
    rw [List.length_map, List.length_take, hperm.length_eq]
    omega
  rw [hlen] at hfold
  exact hfold

theorem expireBrainrots_sublist (t : Int) (m : JsMap BrainrotEntry) :
    (expireBrainrots t m).Sublist m :=
  List.filter_sublist m

theorem expirePlayers_sublist (t : Int) (m : JsMap PlayerEntry) :
    (expirePlayers t m).Sublist m :=
  List.filter_sublist m

theorem cleanupOldBrainrotsWith_sublist_expire (maxB : Nat) (t : Int)
    (m : JsMap BrainrotEntry) :
    (cleanupOldBrainrotsWith maxB t m).Sublist (expireBrainrots t m) := by
  simp only [cleanupOldBrainrotsWith]
  by_cases h : (expireBrainrots t m).length > maxB
  · rw [if_pos h]
    exact JsMap.foldl_delKey_sublist _ _
  · rw [if_neg h]

theorem cleanupOldBrainrotsWith_sublist (maxB : Nat) (t : Int)
    (m : JsMap BrainrotEntry) : (cleanupOldBrainrotsWith maxB t m).Sublist m :=
  (cleanupOldBrainrotsWith_sublist_expire maxB t m).trans (expireBrainrots_sublist t m)

theorem cleanupInactivePlayersWith_sublist_expire (maxP : Nat) (t : Int)
    (m : JsMap PlayerEntry) :
    (cleanupInactivePlayersWith maxP t m).Sublist (expirePlayers t m) := by
  simp only [cleanupInactivePlayersWith]
  by_cases h : (expirePlayers t m).length > maxP
  · rw [if_pos h]
    exact JsMap.foldl_delKey_sublist _ _
  · rw [if_neg h]

theorem cleanupInactivePlayersWith_sublist (maxP : Nat) (t : Int)
    (m : JsMap PlayerEntry) : (cleanupInactivePlayersWith maxP t m).Sublist m :=
  (cleanupInactivePlayersWith_sublist_expire maxP t m).trans (expirePlayers_sublist t m)

theorem cleanupOldBrainrotsWith_length (maxB : Nat) (t : Int)
    (m : JsMap BrainrotEntry) (hnd : m.keys.Nodup) :
    (cleanupOldBrainrotsWith maxB t m).length
      = min (expireBrainrots t m).length maxB := by
  have hndae : (expireBrainrots t m).keys.Nodup :=
    List.Sublist.nodup (JsMap.keys_sublist (expireBrainrots_sublist t m)) hnd
  simp only [cleanupOldBrainrotsWith]
  by_cases h : (expireBrainrots t m).length > maxB
  · rw [if_pos h, capacityEnforce_length _ _ hndae _ (by omega)]
    omega
  · rw [if_neg h]
    omega

theorem cleanupInactivePlayersWith_length (maxP : Nat) (t : Int)
    (m : JsMap PlayerEntry) (hnd : m.keys.Nodup) :
    (cleanupInactivePlayersWith maxP t m).length
      = min (expirePlayers t m).length maxP := by
  have hndae : (expirePlayers t m).keys.Nodup :=
    List.Sublist.nodup (JsMap.keys_sublist (expirePlayers_sublist t m)) hnd
  simp only [cleanupInactivePlayersWith]
  by_cases h : (expirePlayers t m).length > maxP
  · rw [if_pos h, capacityEnforce_length _ _ hndae _ (by omega)]
    omega
  · rw [if_neg h]
    omega

theorem cleanupOldBrainrotsWith_eq_expire {maxB : Nat} {t : Int}
    {m : JsMap BrainrotEntry} (h : (expireBrainrots t m).length ≤ maxB) :
    cleanupOldBrainrotsWith maxB t m = expireBrainrots t m := by
  simp only [cleanupOldBrainrotsWith]
  rw [if_neg (by omega)]

theorem cleanupInactivePlayersWith_eq_expire {maxP : Nat} {t : Int}
    {m : JsMap PlayerEntry} (h : (expirePlayers t m).length ≤ maxP) :
    cleanupInactivePlayersWith maxP t m = expirePlayers t m := by
  simp only [cleanupInactivePlayersWith]
  rw [if_neg (by omega)]

/-- Snd-projection commutes with a filter that only looks at values. -/
theorem map_snd_filter_snd {α : Type} (q : α → Bool) (m : JsMap α) :
    (m.filter (fun kv => q kv.2)).map Prod.snd = (m.map Prod.snd).filter q := by
  induction m with
  | nil => rfl
  | cons kv rest ih =>
    rw [List.filter_cons, List.map_cons, List.filter_cons]
    by_cases h : q kv.2 = true
    · rw [if_pos h, if_pos h, List.map_cons, ih]
    · rw [if_neg h, if_neg h, ih]

/-! ### Set lemmas -/

namespace JsMap

theorem getVal_map_replace : ∀ {m : JsMap α}, m.hasKey k = true →
    ∀ (v : α), getVal (m.map (fun kv => if kv.1 == k then (k, v) else kv)) k
      = some v := by
  intro m
  induction m with
  | nil => intro h _; simp [hasKey] at h
  | cons kv rest ih =>
    intro h v
    obtain ⟨k1, v1⟩ := kv
    by_cases hk : (k1 == k) = true
    · rw [List.map_cons]
      simp only [hk, if_true]
      simp [getVal]
    · have hk' : (k1 == k) = false := by simpa using hk
      have hrest : hasKey rest k = true := by
        unfold hasKey at h ⊢
        rw [List.any_cons] at h
        simpa [hk'] using h
      rw [List.map_cons]
      simp only [hk', Bool.false_eq_true, if_false]
      simp only [getVal, hk', Bool.false_eq_true, if_false]
      exact ih hrest v

theorem getVal_append_single : ∀ {m : JsMap α} {k : String}, m.hasKey k = false →
    ∀ (v : α), getVal (m ++ [(k, v)]) k = some v := by
  intro m
  induction m with
  | nil => intro k _ v; simp [getVal]
  | cons kv rest ih =>
    intro k h v
    unfold hasKey at h
    rw [List.any_cons] at h
    obtain ⟨h1, h2⟩ := Bool.or_eq_false_iff.mp h
    rw [List.cons_append]
    simp only [getVal, h1, Bool.false_eq_true, if_false]
    exact ih h2 v

theorem getVal_set_self (m : JsMap α) (k : String) (v : α) :
    (m.set k v).getVal k = some v := by
  unfold set
  by_cases h : m.hasKey k = true
  · rw [if_pos h]
    exact getVal_map_replace h v
  · have h' : m.hasKey k = false := by simpa using h
    rw [if_neg (by simp [h'])]
    exact getVal_append_single h' v

theorem length_set (m : JsMap α) (k : String) (v : α) :
    (m.set k v).length = if m.hasKey k then m.length else m.length + 1 := by
  unfold set
  by_cases h : m.hasKey k = true
  · rw [if_pos h, if_pos h, List.length_map]
  · have h' : m.hasKey k = false := by simpa using h
    rw [if_neg (by simp [h']), if_neg (by simp [h'])]
    simp

theorem keys_set (m : JsMap α) (k : String) (v : α) :
    (m.set k v).keys = if m.hasKey k then m.keys else m.keys ++ [k] := by
  unfold set keys
  by_cases h : m.hasKey k = true
  · rw [if_pos h, if_pos h, List.map_map]
    apply List.map_congr_left
    intro kv _
    by_cases hk : (kv.1 == k) = true
    · simp only [Function.comp_apply, hk, if_true]
      exact (by simpa using hk : kv.1 = k).symm
    · have hne : ¬ kv.1 = k := by simpa using hk
      simp [Function.comp_apply, hne]
  · have h' : m.hasKey k = false := by simpa using h
    rw [if_neg (by simp [h']), if_neg (by simp [h'])]
    simp

theorem keys_set_nodup {m : JsMap α} (hnd : m.keys.Nodup) (k : String) (v : α) :
    ((m.set k v).keys).Nodup := by
  rw [keys_set]
  by_cases h : m.hasKey k = true
  · rwa [if_pos h]
  · have h' : m.hasKey k = false := by simpa using h
    rw [if_neg (by simp [h'])]
    rw [List.nodup_append]
    refine ⟨hnd, List.nodup_singleton k, ?_⟩
    intro x hx hk
    rw [List.mem_singleton] at hk
    subst hk
    exact absurd (hasKey_iff_mem_keys.mpr hx) (by simp [h'])

end JsMap

/-! ### Concrete stores used in scenario theorems and witnesses -/

def mkBrainrot (nm : String) (ts : Int) : BrainrotEntry :=
  { name := nm, serverId := "s", jobId := "j", players := 0, moneyPerSec := 0,
    lastSeen := ts, active := true, source := "lua" }

def mkPlayer (u : String) (ts : Int) : PlayerEntry :=
  { username := u, serverId := "s", jobId := "j", placeId := "s", lastSeen := ts }

/-- The spec scenario: A inserted at t=0, B at t=1, C at t=2. -/
def demoBrainrotsABC : JsMap BrainrotEntry :=
  [("s_a_j", mkBrainrot "A" 0), ("s_b_j", mkBrainrot "B" 1),
   ("s_c_j", mkBrainrot "C" 2)]

/-- The same scenario in the players store. -/
def demoPlayersABC : JsMap PlayerEntry :=
  [("a_s_j", mkPlayer "A" 0), ("b_s_j", mkPlayer "B" 1),
   ("c_s_j", mkPlayer "C" 2)]

/-- A brainrots store filled to `MAX_BRAINROTS` with live entries last
seen at time 0. -/
def demoFullBrainrots : JsMap BrainrotEntry :=
  (List.range MAX_BRAINROTS).map
    (fun i => ("s_b" ++ toString i ++ "_j", mkBrainrot ("b" ++ toString i) 0))

/-- 51 live players, inserted in the order of their `lastSeen` times
0, 1, ..., 50. -/
def demoManyPlayers : JsMap PlayerEntry :=
  (List.range 51).map
    (fun i => ("u" ++ toString i ++ "_s_j",
      mkPlayer ("u" ++ toString i) (Int.ofNat i)))

/-- A store holding one brainrot last seen at time 0. -/
def demoStaleBrainrot : JsMap BrainrotEntry := [("s_old_j", mkBrainrot "old" 0)]

/-! ### Claim theorems -/

/-- C1: the claim says capacity enforcement evicts the
least-recently-active entries first in both stores, retaining {B, C}
in the maxEntries=2 scenario.  The brainrots store does the opposite:
its capacity pass sorts newest-first and deletes from the front, so it
retains {A, B} and evicts C, the most recently active entry.  The
players store behaves as the claim states (retains {B, C}).  This
theorem evaluates both cleanups on the spec scenario. -/
theorem C1_brainrot_capacity_evicts_newest :
    (cleanupOldBrainrotsWith 2 2 demoBrainrotsABC).map (fun kv => kv.2.name)
        = ["A", "B"]
      ∧ (cleanupInactivePlayersWith 2 2 demoPlayersABC).map (fun kv => kv.2.username)
        = ["B", "C"] := by
  constructor
  · decide
  · decide

/-- C9: the claim says an upsert followed by an immediate read returns
the just-written payload.  At capacity this fails: with
`MAX_BRAINROTS` entries last seen at time 0, a valid upsert at time 1
succeeds, but the capacity pass (which deletes newest-first) evicts
the just-written entry, so the immediate read misses it. -/
theorem C9_upsert_then_get_misses_at_capacity :
    (postBrainrots ⟨some "zzz", some "s", some "j", 7, 9⟩ false 1
        demoFullBrainrots).1 = ApiResult.success
      ∧ ((postBrainrots ⟨some "zzz", some "s", some "j", 7, 9⟩ false 1
          demoFullBrainrots).2).getVal "s_zzz_j" = none
      ∧ ((getBrainrots 1 (postBrainrots ⟨some "zzz", some "s", some "j", 7, 9⟩
          false 1 demoFullBrainrots).2).1.map BrainrotView.name).contains "zzz"
        = false := by
  refine ⟨by decide, by decide, by decide⟩

/-- C10: `GET /players/active` returns at most 50 entries, taken in
map insertion order (no sorting), so with 51 live players the response
includes the least-recently-seen player u0 and omits the
most-recently-seen player u50, while the store itself retains all 51
(within its separate 100-player capacity). -/
theorem C10_players_response_cap_insertion_order :
    (∀ (t : Int) (m : JsMap PlayerEntry),
        (getPlayersActive t m).1
            = (((cleanupInactivePlayers t m).map Prod.snd).take 50).map
                (PlayerEntry.toView t)
          ∧ (getPlayersActive t m).1.length ≤ 50)
      ∧ (getPlayersActive 50 demoManyPlayers).1.length = 50
      ∧ (getPlayersActive 50 demoManyPlayers).2.length = 51
      ∧ 51 ≤ MAX_PLAYERS
      ∧ PlayerEntry.toView 50 (mkPlayer "u0" 0) ∈ (getPlayersActive 50 demoManyPlayers).1
      ∧ (∀ v ∈ (getPlayersActive 50 demoManyPlayers).1, v.username ≠ "u50")
      ∧ (getPlayersActive 50 demoManyPlayers).2.getVal "u50_s_j"
          = some (mkPlayer "u50" 50) := by
  refine ⟨?_, by decide, by decide, by decide, by decide, by decide, by decide⟩
  intro t m
  refine ⟨rfl, ?_⟩
  show ((((cleanupInactivePlayers t m).map Prod.snd).take 50).map
    (PlayerEntry.toView t)).length ≤ 50
  rw [List.length_map]
  exact List.length_take_le _ _

/-- C6 counterexample: removing a never-inserted identity through the
second snapshot's `PATCH /brainrots/leave` reports `success: true`,
not the `false` the claim requires. -/
theorem C6_counterexample :
    JsMap.hasKey ([] : JsMap BrainrotEntry)
        (LeaveReq.key ⟨some "x", some "s", some "j"⟩) = false
      ∧ (patchBrainrotsLeave ⟨some "x", some "s", some "j"⟩
          ([] : JsMap BrainrotEntry)).1 = true := by
  exact ⟨by decide, by decide⟩

/-- C6 (amended): the map-level delete returns whether the key was
present and the first snapshot's leave endpoint surfaces that boolean,
but the second snapshot's leave endpoint responds `success: true`
unconditionally; in both, removing a non-existent identity leaves the
store unchanged (a no-op, not an error), and removal does delete the
key. -/
theorem C6_remove_reports_presence_amended :
    (∀ (req : LeaveReq) (m : JsMap BrainrotEntry),
        patchBrainrotsLeaveV1 req m = (m.hasKey req.key, m.delKey req.key))
      ∧ (∀ (req : LeaveReq) (m : JsMap BrainrotEntry),
          patchBrainrotsLeave req m = (true, m.delKey req.key))
      ∧ (∀ (m : JsMap BrainrotEntry) (k : String),
          m.hasKey k = false → m.delKey k = m)
      ∧ (∀ (m : JsMap BrainrotEntry) (k : String),
          (m.delKey k).hasKey k = false) :=
  ⟨fun _ _ => rfl, fun _ _ => rfl,
    fun _ _ h => JsMap.delKey_eq_self_of_hasKey_eq_false h,
    fun m k => JsMap.hasKey_delKey_self m k⟩

/-- C6 witness: deleting a key that is not in a one-entry store leaves
the store unchanged. -/
theorem C6_witness :
    JsMap.hasKey ([("s_x_j", mkBrainrot "x" 0)] : JsMap BrainrotEntry) "nope" = false
      ∧ JsMap.delKey [("s_x_j", mkBrainrot "x" 0)] "nope"
          = [("s_x_j", mkBrainrot "x" 0)] :=
  ⟨by decide, C6_remove_reports_presence_amended.2.2.1 _ "nope" (by decide)⟩

/-- Every view in the `GET /brainrots` response passed the liveness
filter: its `lastSeen` is at least `now - TTL`. -/
theorem mem_getBrainrots_lastSeen {t : Int} {m : JsMap BrainrotEntry}
    {v : BrainrotView} (hv : v ∈ (getBrainrots t m).1) :
    t - BRAINROT_LIVETIME_MS ≤ v.lastSeen := by
  have h1 : v ∈ List.insertionSort viewNewestFirst
      ((((cleanupOldBrainrots t m).map Prod.snd).filter
        (fun br => decide (t - BRAINROT_LIVETIME_MS ≤ br.lastSeen))).map
          BrainrotEntry.toView) :=
    List.Sublist.mem hv (List.take_sublist _ _)
  have h2 := (List.perm_insertionSort viewNewestFirst _).mem_iff.mp h1
  rw [List.mem_map] at h2
  obtain ⟨br, hbr, hview⟩ := h2
  have hp := List.of_mem_filter hbr
  have hls : v.lastSeen = br.lastSeen := by rw [← hview]; rfl
  rw [hls]
  simpa using hp

/-- C2: for an identity whose entry was last refreshed at
`lastActivity`, a `GET /brainrots` at any time
`now ≥ lastActivity + TTL + sweep interval` both removes the entry
from the store (the read-triggered sweep) and omits it from the
response — the read observes the identity as absent within one
scheduler granularity after the TTL elapses. -/
theorem C2_stale_entry_absent_after_ttl (t : Int) (m : JsMap BrainrotEntry)
    (k : String) (e : BrainrotEntry) (hnd : m.keys.Nodup)
    (hget : m.getVal k = some e)
    (ht : e.lastSeen + BRAINROT_LIVETIME_MS + SWEEP_INTERVAL_MS ≤ t) :
    (getBrainrots t m).2.getVal k = none
      ∧ e.toView ∉ (getBrainrots t m).1 := by
  have hstale : e.lastSeen < t - BRAINROT_LIVETIME_MS := by
    have h30 : BRAINROT_LIVETIME_MS = 30 * 1000 := rfl
    have h2k : SWEEP_INTERVAL_MS = 2000 := rfl
    rw [h30, h2k] at ht
    rw [h30]
    omega
  constructor
  · have hexp : (expireBrainrots t m).hasKey k = false := by
      rw [JsMap.hasKey_eq_false_iff]
      intro v hv
      have hvm : (k, v) ∈ m := List.Sublist.mem hv (expireBrainrots_sublist t m)
      have hvget := JsMap.mem_getVal_of_nodup hnd hvm
      rw [hget] at hvget
      injection hvget with hv_eq
      subst hv_eq
      have hp := List.of_mem_filter hv
      simp only [Bool.not_eq_eq_eq_not, Bool.not_true, decide_eq_false_iff_not] at hp
      exact hp hstale
    have hclean : (cleanupOldBrainrots t m).hasKey k = false :=
      JsMap.hasKey_eq_false_of_sublist
        (cleanupOldBrainrotsWith_sublist_expire MAX_BRAINROTS t m) hexp
    exact JsMap.getVal_eq_none_of_hasKey_eq_false hclean
  · intro hmem
    have hle := mem_getBrainrots_lastSeen hmem
    have hls : e.toView.lastSeen = e.lastSeen := rfl
    rw [hls] at hle
    exact absurd hstale (not_lt.mpr hle)

/-- C2 witness at a concrete input: one entry last seen at time 0 is
absent from both the response and the store of a read at time 32000
(= TTL + sweep interval). -/
theorem C2_witness :
    (demoStaleBrainrot.keys.Nodup
      ∧ demoStaleBrainrot.getVal "s_old_j" = some (mkBrainrot "old" 0)
      ∧ (mkBrainrot "old" 0).lastSeen + BRAINROT_LIVETIME_MS + SWEEP_INTERVAL_MS
          ≤ 32000)
    ∧ ((getBrainrots 32000 demoStaleBrainrot).2.getVal "s_old_j" = none
      ∧ (mkBrainrot "old" 0).toView ∉ (getBrainrots 32000 demoStaleBrainrot).1) :=
  ⟨⟨by decide, by decide, by decide⟩,
    C2_stale_entry_absent_after_ttl 32000 demoStaleBrainrot "s_old_j"
      (mkBrainrot "old" 0) (by decide) (by decide) (by decide)⟩

/-- C4: on a store within its capacity bound (the invariant every
handler re-establishes), the `GET /brainrots` response equals the
spec's Query View — exactly the stored entries with
`lastSeen ≥ now - TTL`, sorted newest first, truncated to the
20-entry response cap — and is sorted, capped, and all-live. -/
theorem C4_live_entries_query (t : Int) (m : JsMap BrainrotEntry)
    (hm : m.length ≤ MAX_BRAINROTS) :
    (getBrainrots t m).1 = liveEntriesSpec t MAX_RESPONSE_BRAINROTS m
      ∧ List.Sorted viewNewestFirst (getBrainrots t m).1
      ∧ (getBrainrots t m).1.length ≤ MAX_RESPONSE_BRAINROTS
      ∧ ∀ v ∈ (getBrainrots t m).1, t - BRAINROT_LIVETIME_MS ≤ v.lastSeen := by
  have hexp : cleanupOldBrainrots t m = expireBrainrots t m := by
    rw [cleanupOldBrainrots]
    exact cleanupOldBrainrotsWith_eq_expire
      (le_trans (List.length_filter_le _ m) hm)
  have hfilter : (((cleanupOldBrainrots t m).map Prod.snd).filter
        (fun br => decide (t - BRAINROT_LIVETIME_MS ≤ br.lastSeen)))
      = ((m.map Prod.snd).filter
        (fun br => decide (t - BRAINROT_LIVETIME_MS ≤ br.lastSeen))) := by
    rw [hexp]
    unfold expireBrainrots
    rw [map_snd_filter_snd
        (fun br => !decide (br.lastSeen < t - BRAINROT_LIVETIME_MS)) m,
      List.filter_filter]
    apply List.filter_congr
    intro br _
    by_cases h : t - BRAINROT_LIVETIME_MS ≤ br.lastSeen
    · have h2 : ¬ br.lastSeen < t - BRAINROT_LIVETIME_MS := not_lt.mpr h
      simp [h, h2]
    · simp [h]
  refine ⟨?_, ?_, ?_, fun v hv => mem_getBrainrots_lastSeen hv⟩
  · show (List.insertionSort viewNewestFirst
        ((((cleanupOldBrainrots t m).map Prod.snd).filter
          (fun br => decide (t - BRAINROT_LIVETIME_MS ≤ br.lastSeen))).map
            BrainrotEntry.toView)).take MAX_RESPONSE_BRAINROTS
      = liveEntriesSpec t MAX_RESPONSE_BRAINROTS m
    rw [hfilter]
    rfl
  · exact List.Pairwise.sublist (List.take_sublist _ _)
      (List.sorted_insertionSort viewNewestFirst _)
  · show ((List.insertionSort viewNewestFirst _).take
        MAX_RESPONSE_BRAINROTS).length ≤ MAX_RESPONSE_BRAINROTS
    exact List.length_take_le _ _

/-- C4 witness: the equality of response and spec Query View at a
concrete store of three live entries. -/
theorem C4_witness :
    demoBrainrotsABC.length ≤ MAX_BRAINROTS
      ∧ (getBrainrots 2 demoBrainrotsABC).1
          = liveEntriesSpec 2 MAX_RESPONSE_BRAINROTS demoBrainrotsABC :=
  ⟨by decide, (C4_live_entries_query 2 demoBrainrotsABC (by decide)).1⟩

/-- C3: capacity enforcement leaves exactly the minimum of the
post-expiry size and the limit — so the store never exceeds its
capacity after an upsert completes, and eviction removes no more than
needed — and each write endpoint leaves its store at or below its
limit (50 brainrots, 100 players) whenever the upsert succeeds. -/
theorem C3_size_bounded_after_upsert :
    (∀ (maxB : Nat) (t : Int) (m : JsMap BrainrotEntry), m.keys.Nodup →
        (cleanupOldBrainrotsWith maxB t m).length
          = min (expireBrainrots t m).length maxB)
      ∧ (∀ (maxP : Nat) (t : Int) (m : JsMap PlayerEntry), m.keys.Nodup →
          (cleanupInactivePlayersWith maxP t m).length
            = min (expirePlayers t m).length maxP)
      ∧ (∀ (req : BrainrotReq) (isRailway : Bool) (t : Int)
          (m : JsMap BrainrotEntry), m.keys.Nodup →
          (postBrainrots req isRailway t m).1 = ApiResult.success →
          ((postBrainrots req isRailway t m).2).length ≤ MAX_BRAINROTS)
      ∧ (∀ (req : HeartbeatReq) (t : Int) (m : JsMap PlayerEntry),
          m.keys.Nodup →
          (playersHeartbeat req t m).1 = ApiResult.success →
          ((playersHeartbeat req t m).2).length ≤ MAX_PLAYERS) := by
  refine ⟨?_, ?_, ?_, ?_⟩
  · intro maxB t m hnd
    exact cleanupOldBrainrotsWith_length maxB t m hnd
  · intro maxP t m hnd
    exact cleanupInactivePlayersWith_length maxP t m hnd
  · intro req isRailway t m hnd hsucc
    simp only [postBrainrots] at hsucc ⊢
    by_cases hval : (trimOrEmpty req.name == "" || trimOrEmpty req.serverId == ""
        || trimOrEmpty req.jobId == "") = true
    · rw [if_pos hval] at hsucc
      simp at hsucc
    · rw [if_neg hval]
      show (cleanupOldBrainrots t _).length ≤ MAX_BRAINROTS
      rw [cleanupOldBrainrots,
        cleanupOldBrainrotsWith_length _ _ _ (JsMap.keys_set_nodup hnd _ _)]
      exact Nat.min_le_right _ _
  · intro req t m hnd hsucc
    simp only [playersHeartbeat] at hsucc ⊢
    by_cases hval : (!truthy req.username || !truthy req.serverId
        || !truthy req.jobId) = true
    · rw [if_pos hval] at hsucc
      simp at hsucc
    · rw [if_neg hval]
      show (cleanupInactivePlayers t _).length ≤ MAX_PLAYERS
      rw [cleanupInactivePlayers,
        cleanupInactivePlayersWith_length _ _ _ (JsMap.keys_set_nodup hnd _ _)]
      exact Nat.min_le_right _ _

/-- C3 witness: an upsert into a store already filled to capacity
still ends at or below `MAX_BRAINROTS`. -/
theorem C3_witness :
    demoFullBrainrots.keys.Nodup
      ∧ (postBrainrots ⟨some "zzz", some "s", some "j", 7, 9⟩ false 1
          demoFullBrainrots).1 = ApiResult.success
      ∧ ((postBrainrots ⟨some "zzz", some "s", some "j", 7, 9⟩ false 1
          demoFullBrainrots).2).length ≤ MAX_BRAINROTS :=
  ⟨by decide, by decide,
    C3_size_bounded_after_upsert.2.2.1 ⟨some "zzz", some "s", some "j", 7, 9⟩
      false 1 demoFullBrainrots (by decide) (by decide)⟩

/-- C5 counterexample: a whitespace-only username is empty after
trimming whitespace, yet the player heartbeat accepts it (the
heartbeat never trims) and the store is modified — refuting the claim
for the heartbeat endpoint. -/
theorem C5_counterexample :
    jsTrim "   " = ""
      ∧ (playersHeartbeat ⟨some "   ", some "s", some "j", none⟩ 0 []).1
          = ApiResult.success
      ∧ (playersHeartbeat ⟨some "   ", some "s", some "j", none⟩ 0 []).2 ≠ [] := by
  refine ⟨by decide, by decide, by decide⟩

/-- C5 (amended): the brainrot upsert rejects exactly when a component
is missing, not a string, or empty after trimming, leaving the store
unchanged; the player heartbeat rejects exactly when a component is
missing or the empty string, with no trimming (whitespace-only values
pass validation), leaving the store unchanged; otherwise both
succeed. -/
theorem C5_validation_amended :
    (∀ (req : BrainrotReq) (isRailway : Bool) (t : Int) (m : JsMap BrainrotEntry),
        ((trimOrEmpty req.name = "" ∨ trimOrEmpty req.serverId = ""
            ∨ trimOrEmpty req.jobId = "") →
          postBrainrots req isRailway t m
            = (ApiResult.badRequest "Missing name, serverId, or jobId", m))
        ∧ (trimOrEmpty req.name ≠ "" → trimOrEmpty req.serverId ≠ "" →
            trimOrEmpty req.jobId ≠ "" →
          (postBrainrots req isRailway t m).1 = ApiResult.success))
    ∧ (∀ (req : HeartbeatReq) (t : Int) (m : JsMap PlayerEntry),
        ((truthy req.username = false ∨ truthy req.serverId = false
            ∨ truthy req.jobId = false) →
          playersHeartbeat req t m
            = (ApiResult.badRequest "Missing username, serverId, or jobId", m))
        ∧ (truthy req.username = true → truthy req.serverId = true →
            truthy req.jobId = true →
          (playersHeartbeat req t m).1 = ApiResult.success)) := by
  constructor
  · intro req isRailway t m
    constructor
    · intro h
      have hcond : (trimOrEmpty req.name == "" || trimOrEmpty req.serverId == ""
          || trimOrEmpty req.jobId == "") = true := by
        rcases h with h | h | h <;> simp [h]
      simp [postBrainrots, hcond]
    · intro h1 h2 h3
      have hcond : (trimOrEmpty req.name == "" || trimOrEmpty req.serverId == ""
          || trimOrEmpty req.jobId == "") = false := by
        simp [h1, h2, h3]
      simp [postBrainrots, hcond]
  · intro req t m
    constructor
    · intro h
      have hcond : (!truthy req.username || !truthy req.serverId
          || !truthy req.jobId) = true := by
        rcases h with h | h | h <;> simp [h]
      simp [playersHeartbeat, hcond]
    · intro h1 h2 h3
      have hcond : (!truthy req.username || !truthy req.serverId
          || !truthy req.jobId) = false := by
        simp [h1, h2, h3]
      simp [playersHeartbeat, hcond]

/-- C5 witness: a fully-populated heartbeat passes validation. -/
theorem C5_witness :
    truthy (some "u") = true
      ∧ (playersHeartbeat ⟨some "u", some "s", some "j", none⟩ 0 []).1
          = ApiResult.success :=
  ⟨by decide,
    (C5_validation_amended.2 ⟨some "u", some "s", some "j", none⟩ 0 []).2
      (by decide) (by decide) (by decide)⟩

/-- The key `POST /brainrots` stores a valid request under. -/
def brKey (req : BrainrotReq) : String :=
  trimOrEmpty req.serverId ++ "_" ++ jsToLower (trimOrEmpty req.name) ++ "_"
    ++ trimOrEmpty req.jobId

/-- The entry `POST /brainrots` stores for a valid request at time `t`. -/
def brEntry (req : BrainrotReq) (isRailway : Bool) (t : Int) : BrainrotEntry :=
  { name := trimOrEmpty req.name
    serverId := trimOrEmpty req.serverId
    jobId := trimOrEmpty req.jobId
    players := req.players
    moneyPerSec := req.moneyPerSec
    lastSeen := t
    active := true
    source := if isRailway then "bot" else "lua" }

/-- The key `POST /players/heartbeat` stores a valid request under. -/
def hbKey (req : HeartbeatReq) : String :=
  jsToLower (req.username.getD "") ++ "_" ++ req.serverId.getD "" ++ "_"
    ++ req.jobId.getD ""

/-- The entry `POST /players/heartbeat` stores for a valid request at
time `t` (note `placeId: placeId || serverId`). -/
def hbEntry (req : HeartbeatReq) (t : Int) : PlayerEntry :=
  { username := req.username.getD ""
    serverId := req.serverId.getD ""
    jobId := req.jobId.getD ""
    placeId := if truthy req.placeId then req.placeId.getD ""
               else req.serverId.getD ""
    lastSeen := t }

/-- C7 counterexample: a heartbeat supplying `placeId: ""` (a falsy
producer value) has its placeId rewritten to the serverId by
`placeId || serverId` rather than stored verbatim. -/
theorem C7_counterexample :
    (playersHeartbeat ⟨some "u", some "s1", some "j", some ""⟩ 0 []).2.getVal
        "u_s1_j"
      = some { username := "u", serverId := "s1", jobId := "j",
               placeId := "s1", lastSeen := 0 }
      ∧ ("s1" : String) ≠ "" := by
  refine ⟨by decide, by decide⟩

/-- C7 (amended): a valid upsert that is not itself capacity-evicted
stores the brainrot payload fields (`players`, `moneyPerSec`)
verbatim; the player heartbeat stores `placeId` verbatim only when it
is truthy, otherwise it defaults to the serverId. -/
theorem C7_payload_storage_amended :
    (∀ (req : BrainrotReq) (isRailway : Bool) (t : Int) (m : JsMap BrainrotEntry),
        trimOrEmpty req.name ≠ "" → trimOrEmpty req.serverId ≠ "" →
        trimOrEmpty req.jobId ≠ "" → m.length < MAX_BRAINROTS →
        (postBrainrots req isRailway t m).2.getVal (brKey req)
            = some (brEntry req isRailway t)
          ∧ (brEntry req isRailway t).players = req.players
          ∧ (brEntry req isRailway t).moneyPerSec = req.moneyPerSec)
    ∧ (∀ (req : HeartbeatReq) (t : Int) (m : JsMap PlayerEntry),
        truthy req.username = true → truthy req.serverId = true →
        truthy req.jobId = true → m.length < MAX_PLAYERS →
        (playersHeartbeat req t m).2.getVal (hbKey req) = some (hbEntry req t)
          ∧ (hbEntry req t).placeId
              = (if truthy req.placeId = true then req.placeId.getD ""
                 else req.serverId.getD "")) := by
  constructor
  · intro req isRailway t m h1 h2 h3 hm
    refine ⟨?_, rfl, rfl⟩
    have hcond : (trimOrEmpty req.name == "" || trimOrEmpty req.serverId == ""
        || trimOrEmpty req.jobId == "") = false := by
      simp [h1, h2, h3]
    have hpost : (postBrainrots req isRailway t m).2
        = cleanupOldBrainrots t
            (JsMap.set m (brKey req) (brEntry req isRailway t)) := by
      simp only [postBrainrots, hcond, Bool.false_eq_true, if_false]
      rfl
    rw [hpost]
    have hlen : (expireBrainrots t
        (JsMap.set m (brKey req) (brEntry req isRailway t))).length
          ≤ MAX_BRAINROTS := by
      calc (expireBrainrots t
            (JsMap.set m (brKey req) (brEntry req isRailway t))).length
          ≤ (JsMap.set m (brKey req) (brEntry req isRailway t)).length :=
            List.length_filter_le _ _
        _ ≤ m.length + 1 := by
            rw [JsMap.length_set]
            by_cases h : JsMap.hasKey m (brKey req) = true
            · rw [if_pos h]; exact Nat.le_succ _
            · rw [if_neg h]
        _ ≤ MAX_BRAINROTS := hm
    rw [cleanupOldBrainrots, cleanupOldBrainrotsWith_eq_expire hlen]
    unfold expireBrainrots
    apply JsMap.getVal_filter (JsMap.getVal_set_self m _ _)
    show (!decide ((brEntry req isRailway t).lastSeen
        < t - BRAINROT_LIVETIME_MS)) = true
    have hnl : ¬ ((brEntry req isRailway t).lastSeen < t - BRAINROT_LIVETIME_MS) := by
      show ¬ (t < t - BRAINROT_LIVETIME_MS)
      have h30 : BRAINROT_LIVETIME_MS = 30 * 1000 := rfl
      rw [h30]
      omega
    simp [hnl]
  · intro req t m h1 h2 h3 hm
    refine ⟨?_, rfl⟩
    have hcond : (!truthy req.username || !truthy req.serverId
        || !truthy req.jobId) = false := by
      simp [h1, h2, h3]
    have hpost : (playersHeartbeat req t m).2
        = cleanupInactivePlayers t (JsMap.set m (hbKey req) (hbEntry req t)) := by
      simp only [playersHeartbeat, hcond, Bool.false_eq_true, if_false]
      rfl
    rw [hpost]
    have hlen : (expirePlayers t
        (JsMap.set m (hbKey req) (hbEntry req t))).length ≤ MAX_PLAYERS := by
      calc (expirePlayers t (JsMap.set m (hbKey req) (hbEntry req t))).length
          ≤ (JsMap.set m (hbKey req) (hbEntry req t)).length :=
            List.length_filter_le _ _
        _ ≤ m.length + 1 := by
            rw [JsMap.length_set]
            by_cases h : JsMap.hasKey m (hbKey req) = true
            · rw [if_pos h]; exact Nat.le_succ _
            · rw [if_neg h]
        _ ≤ MAX_PLAYERS := hm
    rw [cleanupInactivePlayers, cleanupInactivePlayersWith_eq_expire hlen]
    unfold expirePlayers
    apply JsMap.getVal_filter (JsMap.getVal_set_self m _ _)
    show (!decide ((hbEntry req t).lastSeen < t - PLAYER_TIMEOUT_MS)) = true
    have hnl : ¬ ((hbEntry req t).lastSeen < t - PLAYER_TIMEOUT_MS) := by
      show ¬ (t < t - PLAYER_TIMEOUT_MS)
      have h30 : PLAYER_TIMEOUT_MS = 30 * 1000 := rfl
      rw [h30]
      omega
    simp [hnl]

/-- C7 witness: a valid brainrot upsert on an empty store is readable
at its key, with the payload fields stored verbatim. -/
theorem C7_witness :
    (trimOrEmpty (some "N") ≠ ""
      ∧ ([] : JsMap BrainrotEntry).length < MAX_BRAINROTS)
      ∧ (postBrainrots ⟨some "N", some "s", some "j", 3, 4⟩ false 0 []).2.getVal
          (brKey ⟨some "N", some "s", some "j", 3, 4⟩)
          = some (brEntry ⟨some "N", some "s", some "j", 3, 4⟩ false 0)
      ∧ (brEntry ⟨some "N", some "s", some "j", 3, 4⟩ false 0).players = 3 :=
  ⟨⟨by decide, by decide⟩,
    (C7_payload_storage_amended.1 ⟨some "N", some "s", some "j", 3, 4⟩ false 0 []
      (by decide) (by decide) (by decide) (by decide)).1,
    by decide⟩

/-- C8: reads never modify a surviving entry: the store after each
read endpoint is a sublist of the store before it (reads at most
delete entries, via the cleanup they trigger), the stats read leaves
the store untouched, and any entry readable after a `GET /brainrots`
was already present, unchanged (same `lastSeen` and payload), before
the read. -/
theorem C8_reads_never_refresh :
    (∀ (t : Int) (m : JsMap BrainrotEntry), (getBrainrots t m).2.Sublist m)
      ∧ (∀ (t : Int) (m : JsMap PlayerEntry), (getPlayersActive t m).2.Sublist m)
      ∧ (∀ (t : Int) (m : JsMap BrainrotEntry), (getBrainrotsDebug t m).2.Sublist m)
      ∧ (∀ (t : Int) (m : JsMap BrainrotEntry), (getBrainrotsStats t m).2 = m)
      ∧ (∀ (t : Int) (m : JsMap BrainrotEntry), m.keys.Nodup →
          ∀ (k : String) (e : BrainrotEntry),
            (getBrainrots t m).2.getVal k = some e → m.getVal k = some e) := by
  refine ⟨fun t m => cleanupOldBrainrotsWith_sublist MAX_BRAINROTS t m,
    fun t m => cleanupInactivePlayersWith_sublist MAX_PLAYERS t m,
    fun t m => cleanupOldBrainrotsWith_sublist MAX_BRAINROTS t m,
    fun t m => rfl, ?_⟩
  intro t m hnd k e hget
  exact JsMap.getVal_some_of_sublist
    (cleanupOldBrainrotsWith_sublist MAX_BRAINROTS t m) hnd hget

/-- C8 witness: an entry surviving a `GET /brainrots` read carries the
same record it had before the read. -/
theorem C8_witness :
    (demoBrainrotsABC.keys.Nodup
      ∧ (getBrainrots 2 demoBrainrotsABC).2.getVal "s_a_j"
          = some (mkBrainrot "A" 0))
      ∧ demoBrainrotsABC.getVal "s_a_j" = some (mkBrainrot "A" 0) :=
  ⟨⟨by decide, by decide⟩,
    C8_reads_never_refresh.2.2.2.2 2 demoBrainrotsABC (by decide) "s_a_j"
      (mkBrainrot "A" 0) (by decide)⟩

/-- C10 witness: the response-size bound at a concrete read, and the
omission of the most recent player checked at a concrete view. -/
theorem C10_witness :
    (getPlayersActive 0 ([] : JsMap PlayerEntry)).1.length ≤ 50
      ∧ (PlayerEntry.toView 50 (mkPlayer "u0" 0)).username ≠ "u50" :=
  ⟨(C10_players_response_cap_insertion_order.1 0 []).2,
    C10_players_response_cap_insertion_order.2.2.2.2.2.1
      (PlayerEntry.toView 50 (mkPlayer "u0" 0)) (by decide)⟩
